import Mathlib

/-!
Verification of the download queue / worker-pool manager of the
SteamGames-Downloader repository (`src/downloader.py`, `src/models.py`).

The embedding models:
* `DownloadStatus`, `DownloadRequest`, `DownloadInfo` from `models.py`;
* the `DownloadManager` state (`download_queue`, `active_downloads`,
  `download_history`, `futures`) and its operations `add_to_queue`,
  `get_download_status`, `cancel_download`, the dispatch part of
  `_process_queue`, and `_download_game` from `downloader.py`.

Timestamps are modelled as natural-number clock values, the Python dict
`active_downloads` as an insertion-ordered association list, and the
external SteamCMD collaborator (`login` / `download_game`) by an exogenous
behaviour record: each call either returns a boolean or raises an
exception carrying a message.  The `try`/`except` block of
`_download_game` is modelled with `Except String`: a `.error` value is a
raised Python exception whose `str(e)` is the carried message.  Since all
mutations of the shared state happen under one re-entrant lock, the
concurrent system is modelled by interleaving whole locked critical
sections: an adversarially chosen sequence of `Event`s folded over the
state.
-/

namespace SteamDL

/-- `models.py` `DownloadStatus` enum. -/
inductive DownloadStatus where
  | queued
  | downloading
  | completed
  | failed
  | canceled
deriving DecidableEq, Repr

/-- `models.py` `DownloadRequest`. -/
structure DownloadRequest where
  app_id : Int
  anonymous : Bool := true
  username : Option String := none
  password : Option String := none
  steam_guard_code : Option String := none
  install_dir : Option String := none
deriving DecidableEq, Repr

/-- `models.py` `DownloadInfo`.  `progress` is 0.0 or 100.0 in every
reachable state, so it is modelled as a natural number; timestamps are
clock values. -/
structure DownloadInfo where
  id : String
  app_id : Int
  name : String := "Unknown Game"
  progress : Nat := 0
  status : DownloadStatus := .queued
  start_time : Nat
  end_time : Option Nat := none
  error_message : Option String := none
deriving DecidableEq, Repr

/-- The mutable state of `DownloadManager` (`downloader.py` lines 21-30):
the FIFO `queue.Queue` of `(download_id, request, download_info)` tuples,
the `active_downloads` dict (insertion-ordered association list), the
`download_history` list (newest first) and the keys of the `futures`
dict. -/
structure ManagerState where
  download_queue : List (String × DownloadRequest × DownloadInfo) := []
  active_downloads : List (String × DownloadInfo) := []
  download_history : List DownloadInfo := []
  futures : List String := []
deriving DecidableEq, Repr

/-- The two settings `_process_queue` / `_download_game` /
`cancel_download` read (`config.py`): `MAX_CONCURRENT_DOWNLOADS` and
`MAX_HISTORY_SIZE`. -/
structure Config where
  maxConcurrent : Nat
  maxHistorySize : Nat
deriving DecidableEq, Repr

/-- Python `dict` lookup `d[k]` / `k in d` on the association list. -/
def lookupActive : List (String × DownloadInfo) → String → Option DownloadInfo
  | [], _ => none
  | (k, v) :: rest, i => if k = i then some v else lookupActive rest i

/-- Python `del d[k]` on the association list. -/
def removeKey : List (String × DownloadInfo) → String → List (String × DownloadInfo)
  | [], _ => []
  | (k, v) :: rest, i =>
      if k = i then removeKey rest i else (k, v) :: removeKey rest i

/-- Linear scan of `download_history` by the `id` field
(`get_download_status` lines 92-94). -/
def lookupHistory : List DownloadInfo → String → Option DownloadInfo
  | [], _ => none
  | d :: rest, i => if d.id = i then some d else lookupHistory rest i

/-- History insertion as written in `cancel_download` (lines 119-121) and
`_download_game` (lines 195-197): `insert(0, download)` then, when the
length exceeds `MAX_HISTORY_SIZE`, `pop()` the last element. -/
def insertHistory (maxH : Nat) (d : DownloadInfo)
    (h : List DownloadInfo) : List DownloadInfo :=
  let h' := d :: h
  if maxH < h'.length then h'.dropLast else h'

/-- `add_to_queue` (lines 62-82).  The generated `download_id` and the
best-effort resolved `game_name` are parameters (outputs of
`generate_download_id` and `get_steam_app_info`); `now` is the
`datetime.now()` submission timestamp.  The new record is `QUEUED` with
default progress 0, no end time, no error message, and is appended at the
queue's tail. -/
def add_to_queue (s : ManagerState) (download_id : String)
    (request : DownloadRequest) (game_name : String) (now : Nat) :
    ManagerState :=
  let download_info : DownloadInfo :=
    { id := download_id
      app_id := request.app_id
      name := game_name
      status := .queued
      start_time := now }
  { s with download_queue :=
      s.download_queue ++ [(download_id, request, download_info)] }

/-- `get_download_status` (lines 84-96): check `active_downloads`, then
`download_history`, else `None`.  A pure read: it takes the state and
returns only the record, so it has no side effects by construction. -/
def get_download_status (s : ManagerState) (download_id : String) :
    Option DownloadInfo :=
  match lookupActive s.active_downloads download_id with
  | some d => some d
  | none => lookupHistory s.download_history download_id

/-- `cancel_download` (lines 106-131): only if the id is in
`active_downloads` does it mark the record `CANCELED`, set the end time,
insert it at the history head (with truncation), and delete it from the
active dict and the futures dict, returning `True`; otherwise it returns
`False` and changes nothing.  The queue is never examined. -/
def cancel_download (cfg : Config) (s : ManagerState)
    (download_id : String) (now : Nat) : Bool × ManagerState :=
  match lookupActive s.active_downloads download_id with
  | some download =>
      let download' := { download with
        status := .canceled
        end_time := some now }
      (true,
        { s with
          download_history :=
            insertHistory cfg.maxHistorySize download' s.download_history
          active_downloads := removeKey s.active_downloads download_id
          futures := s.futures.erase download_id })
  | none => (false, s)

/-- One dispatching iteration of `_process_queue` (lines 133-156): when
the queue is non-empty and `len(active_downloads)` is strictly below
`MAX_CONCURRENT_DOWNLOADS`, pop the queue head, mark it `DOWNLOADING`,
register it in `active_downloads` and `futures`, and report the
dispatched id; otherwise leave the state unchanged. -/
def processQueueStep (cfg : Config) (s : ManagerState) :
    ManagerState × Option String :=
  match s.download_queue with
  | [] => (s, none)
  | (download_id, _request, download_info) :: rest =>
      if s.active_downloads.length < cfg.maxConcurrent then
        let download_info' := { download_info with
          status := DownloadStatus.downloading }
        ({ s with
            download_queue := rest
            active_downloads :=
              s.active_downloads ++ [(download_id, download_info')]
            futures := s.futures ++ [download_id] },
          some download_id)
      else (s, none)

/-- Outcome of one call into the external SteamCMD collaborator: the
boolean it returns, or an exception it raises with message `msg`
(Python `str(e)`). -/
inductive CallResult where
  | ok
  | failed
  | raised (msg : String)
deriving DecidableEq, Repr

/-- Exogenous behaviour of `steam_cmd` for one dispatch: what `login`
and `download_game` would do if invoked. -/
structure FetchSim where
  login : CallResult
  fetch : CallResult
deriving DecidableEq, Repr

/-- Result of the `try` block of `_download_game` (lines 164-183)
together with observation flags recording whether `steam_cmd.login` and
`steam_cmd.download_game` were invoked.  `.ok` means the block completed
with `success = True`; `.error m` means an exception with text `m` was
raised (and caught by the `except` clause, which sets
`success = False`, `error_message = m`).

When `request.install_dir` is truthy (non-`None` and non-empty: Python
`if request.install_dir:`) the line
`install_dir = Path(request.install_dir)` raises
`NameError: name 'Path' is not defined` before any SteamCMD call,
because `Path` is not imported in `downloader.py`.  Otherwise: if the
request is not anonymous, `login` is invoked — a raised exception
propagates, a `False` return raises `Exception("Steam login failed")`;
then `download_game` is invoked — a raised exception propagates, a
`False` return raises `Exception("Steam download failed")`, a `True`
return completes the block successfully. -/
structure BodyResult where
  outcome : Except String Unit
  loginCalled : Bool
  fetchCalled : Bool
deriving Repr

/-- Outcome of the `download_game` invocation inside the `try` block
(lines 176-178): a `False` return raises
`Exception("Steam download failed")`. -/
def fetchOutcome : CallResult → Except String Unit
  | .ok => .ok ()
  | .failed => .error "Steam download failed"
  | .raised m => .error m

/-- The part of the `try` block after the install-directory resolution
(lines 170-178): login when not anonymous, then the fetch. -/
def bodyAfterPath (request : DownloadRequest) (sim : FetchSim) :
    BodyResult :=
  if request.anonymous then
    { outcome := fetchOutcome sim.fetch
      loginCalled := false
      fetchCalled := true }
  else
    match sim.login with
    | .raised m =>
        { outcome := .error m, loginCalled := true, fetchCalled := false }
    | .failed =>
        { outcome := .error "Steam login failed"
          loginCalled := true
          fetchCalled := false }
    | .ok =>
        { outcome := fetchOutcome sim.fetch
          loginCalled := true
          fetchCalled := true }

/-- The whole `try` block of `_download_game` (lines 164-178), starting
with the install-directory resolution (lines 166-168). -/
def downloadGameBody (request : DownloadRequest) (sim : FetchSim) :
    BodyResult :=
  match request.install_dir with
  | some dir =>
      if dir = "" then bodyAfterPath request sim
      else
        { outcome := .error "name 'Path' is not defined"
          loginCalled := false
          fetchCalled := false }
  | none => bodyAfterPath request sim

/-- The finalization block of `_download_game` (lines 185-202), run
under the lock with the `success` / `error_message` values produced by
the `try`/`except`: only if the id is still in `active_downloads`, set
the end time, set status `COMPLETED`/`FAILED`, set progress to 100 on
success (unchanged otherwise), overwrite the error message, insert at
the history head with truncation, and delete the id from the active and
futures dicts.  If the id is no longer active nothing changes. -/
def finalizeDownload (cfg : Config) (download_id : String)
    (success : Bool) (error_message : Option String) (now : Nat)
    (s : ManagerState) : ManagerState :=
  match lookupActive s.active_downloads download_id with
  | some download =>
      let download' := { download with
        end_time := some now
        status :=
          if success then DownloadStatus.completed else DownloadStatus.failed
        progress := if success then 100 else download.progress
        error_message := error_message }
      { s with
        download_history :=
          insertHistory cfg.maxHistorySize download' s.download_history
        active_downloads := removeKey s.active_downloads download_id
        futures := s.futures.erase download_id }
  | none => s

/-- `success` after the `try`/`except` of `_download_game`. -/
def bodySuccess (r : BodyResult) : Bool :=
  match r.outcome with
  | .ok _ => true
  | .error _ => false

/-- `error_message` after the `try`/`except` of `_download_game`:
`None` unless an exception was caught, then `str(e)`. -/
def bodyError (r : BodyResult) : Option String :=
  match r.outcome with
  | .ok _ => none
  | .error m => some m

/-- The whole worker routine `_download_game` (lines 158-202): run the
`try`/`except` body against the collaborator behaviour `sim`, then the
locked finalization. -/
def downloadGame (cfg : Config) (download_id : String)
    (request : DownloadRequest) (sim : FetchSim) (now : Nat)
    (s : ManagerState) : ManagerState :=
  let r := downloadGameBody request sim
  finalizeDownload cfg download_id (bodySuccess r) (bodyError r) now s

/-! ### Interleaving semantics

Every mutation of the shared state happens inside one critical section of
the single re-entrant lock, so an execution of the concurrent system is a
sequence of whole critical sections: submissions, scheduler dispatch
iterations, worker finalizations and cancellations, in an adversarially
chosen order.  A `finalize` event carries the request and the
collaborator behaviour and runs the whole `_download_game` routine; the
scheduler's capacity/queue checks are inside the `dispatch` event. -/

/-- One atomic step of the system. -/
inductive Event where
  | submit (download_id : String) (request : DownloadRequest)
      (game_name : String) (now : Nat)
  | dispatch
  | finalize (download_id : String) (request : DownloadRequest)
      (sim : FetchSim) (now : Nat)
  | cancel (download_id : String) (now : Nat)

/-- Apply one event to the state. -/
def step (cfg : Config) (s : ManagerState) : Event → ManagerState
  | .submit i req name now => add_to_queue s i req name now
  | .dispatch => (processQueueStep cfg s).1
  | .finalize i req sim now => downloadGame cfg i req sim now s
  | .cancel i now => (cancel_download cfg s i now).2

/-- Run a trace of events from a state. -/
def run (cfg : Config) (s : ManagerState) : List Event → ManagerState
  | [] => s
  | e :: es => run cfg (step cfg s e) es

/-- The fresh state of a newly constructed `DownloadManager`: empty
queue, empty active dict, empty history, empty futures dict. -/
def initState : ManagerState := {}

/-- The ids handed out by submissions, in submission order. -/
def submittedIds : List Event → List String
  | [] => []
  | .submit i _ _ _ :: es => i :: submittedIds es
  | _ :: es => submittedIds es

/-- The ids dispatched by the scheduler (marked `DOWNLOADING` and entered
into the active set), in dispatch order, along the run from `s`. -/
def dispatchLog (cfg : Config) (s : ManagerState) : List Event → List String
  | [] => []
  | .dispatch :: es =>
      match processQueueStep cfg s with
      | (s', some i) => i :: dispatchLog cfg s' es
      | (s', none) => dispatchLog cfg s' es
  | e :: es => dispatchLog cfg (step cfg s e) es

/-- Ids currently waiting in the submission queue, front first. -/
def queueIds (s : ManagerState) : List String :=
  s.download_queue.map (fun t => t.1)

/-- Keys of the active dict, insertion order. -/
def activeIds (s : ManagerState) : List String :=
  s.active_downloads.map (fun p => p.1)

/-- Ids of the records in the history list. -/
def historyIds (s : ManagerState) : List String :=
  s.download_history.map (fun d => d.id)

/-- Terminal statuses. -/
def Terminal (st : DownloadStatus) : Prop :=
  st = .completed ∨ st = .failed ∨ st = .canceled

instance (st : DownloadStatus) : Decidable (Terminal st) := by
  unfold Terminal; infer_instance

/-- A state reachable from a fresh `DownloadManager` by some interleaving
of submissions, scheduler iterations, worker finalizations and
cancellations. -/
def Reachable (cfg : Config) (s : ManagerState) : Prop :=
  ∃ es : List Event, s = run cfg initState es

/-- The inductive invariant of the manager state: the active set is
within the concurrency limit, the history is within the history cap,
every queued tuple holds a `QUEUED` record keyed by its own id with no
error message, every active entry holds a `DOWNLOADING` record keyed by
its own id with no error message, and every history record is terminal
with an error message only if it is `FAILED`. -/
structure Inv (cfg : Config) (s : ManagerState) : Prop where
  active_le : s.active_downloads.length ≤ cfg.maxConcurrent
  hist_le : s.download_history.length ≤ cfg.maxHistorySize
  queue_rec : ∀ t ∈ s.download_queue,
    t.2.2.id = t.1 ∧ t.2.2.status = .queued ∧ t.2.2.error_message = none
  active_rec : ∀ p ∈ s.active_downloads,
    p.2.id = p.1 ∧ p.2.status = .downloading ∧ p.2.error_message = none
  hist_rec : ∀ d ∈ s.download_history,
    Terminal d.status ∧ (d.status ≠ .failed → d.error_message = none)

/-- The record inserted into history by the finalization block of
`_download_game` when the id is still active. -/
def finalRecord (d : DownloadInfo) (success : Bool)
    (err : Option String) (now : Nat) : DownloadInfo :=
  { d with
    end_time := some now
    status :=
      if success then DownloadStatus.completed else DownloadStatus.failed
    progress := if success then 100 else d.progress
    error_message := err }

/-- The identifier `i` occurs neither as a key nor as a record id in any
of the three containers. -/
def NotPresent (i : String) (s : ManagerState) : Prop :=
  (∀ t ∈ s.download_queue, t.1 ≠ i ∧ t.2.2.id ≠ i) ∧
  (∀ p ∈ s.active_downloads, p.1 ≠ i ∧ p.2.id ≠ i) ∧
  (∀ d ∈ s.download_history, d.id ≠ i)

/-- The identifier `i` is invisible to `get_download_status`: it occurs
neither among the active keys nor among the history record ids (it may
still sit in the queue, which `get_download_status` never consults). -/
def NotVisible (i : String) (s : ManagerState) : Prop :=
  (∀ p ∈ s.active_downloads, p.1 ≠ i) ∧
  (∀ d ∈ s.download_history, d.id ≠ i)

/-- Whether the event is a submission handing out exactly the id `i`. -/
def submitsId : Event → String → Prop
  | .submit j _ _ _, i => j = i
  | _, _ => False

/-- Fixture: configuration with concurrency limit 1 and history cap 50
(the defaults of `config.py` are `MAX_CONCURRENT_DOWNLOADS = 1`,
`MAX_HISTORY_SIZE = 50`). -/
def cfgDefault : Config := { maxConcurrent := 1, maxHistorySize := 50 }

/-- Fixture: concurrency limit 1, history cap 2 (the cap-2 scenario). -/
def cfgCapTwo : Config := { maxConcurrent := 1, maxHistorySize := 2 }

/-- Fixture: an anonymous request for a given app id, all other fields
at their `DownloadRequest` defaults. -/
def reqAnon (a : Int) : DownloadRequest := { app_id := a }

/-- Fixture: collaborator whose `login` and `download_game` both return
`True`. -/
def simOk : FetchSim := { login := .ok, fetch := .ok }

/-- Fixture: collaborator whose `download_game` returns `False`. -/
def simFetchFails : FetchSim := { login := .ok, fetch := .failed }

/-- Fixture: a request whose install-directory override is the empty
string (non-null but falsy in Python). -/
def reqEmptyDir : DownloadRequest := { app_id := 42, install_dir := some "" }

/-- Fixture: a request with a truthy install-directory override. -/
def reqPathDir : DownloadRequest := { app_id := 7, install_dir := some "/games/x" }

/-- Fixture: submit, dispatch and successfully finalize three jobs with
app ids 1, 2, 3 in that order. -/
def esCapTwo : List Event :=
  [.submit "j1" (reqAnon 1) "G" 0, .dispatch, .finalize "j1" (reqAnon 1) simOk 1,
   .submit "j2" (reqAnon 2) "G" 2, .dispatch, .finalize "j2" (reqAnon 2) simOk 3,
   .submit "j3" (reqAnon 3) "G" 4, .dispatch, .finalize "j3" (reqAnon 3) simOk 5]

/-- Fixture: the record of job "a" (app id 10) after submission at time 0
and dispatch. -/
def recA : DownloadInfo :=
  { id := "a", app_id := 10, name := "G", progress := 0,
    status := .downloading, start_time := 0, end_time := none,
    error_message := none }

/-- All job records held anywhere in the manager: queued tuples' records,
active records, history records. -/
def allRecords (s : ManagerState) : List DownloadInfo :=
  s.download_queue.map (fun t => t.2.2) ++
    s.active_downloads.map (fun p => p.2) ++ s.download_history

/-- Fixture: the record of job "p" (request `reqPathDir`) after
submission at time 0 and dispatch. -/
def recP : DownloadInfo :=
  { id := "p", app_id := 7, name := "G", progress := 0,
    status := .downloading, start_time := 0, end_time := none,
    error_message := none }

/-! ### List helper lemmas -/

theorem insertHistory_length_le (maxH : Nat) (d : DownloadInfo)
    (h : List DownloadInfo) (hh : h.length ≤ maxH) :
    (insertHistory maxH d h).length ≤ maxH := by
  simp only [insertHistory]
  split
  · simpa using hh
  · next hc => simp only [List.length_cons] at hc ⊢; omega

theorem mem_insertHistory (maxH : Nat) (d x : DownloadInfo)
    (h : List DownloadInfo) (hx : x ∈ insertHistory maxH d h) :
    x = d ∨ x ∈ h := by
  simp only [insertHistory] at hx
  split at hx
  · have := List.mem_of_mem_dropLast hx
    simpa using this
  · simpa using hx

theorem mem_removeKey (l : List (String × DownloadInfo)) (i : String)
    (p : String × DownloadInfo) (hp : p ∈ removeKey l i) : p ∈ l := by
  induction l with
  | nil => simp [removeKey] at hp
  | cons q rest ih =>
      simp only [removeKey] at hp
      split at hp
      · exact List.mem_cons_of_mem _ (ih hp)
      · rcases List.mem_cons.mp hp with h | h
        · simp [h]
        · exact List.mem_cons_of_mem _ (ih h)

theorem length_removeKey_le (l : List (String × DownloadInfo))
    (i : String) : (removeKey l i).length ≤ l.length := by
  induction l with
  | nil => simp [removeKey]
  | cons q rest ih =>
      simp only [removeKey]
      split
      · exact Nat.le_succ_of_le ih
      · simpa using ih

theorem lookupActive_mem (l : List (String × DownloadInfo)) (i : String)
    (d : DownloadInfo) (hd : lookupActive l i = some d) : (i, d) ∈ l := by
  induction l with
  | nil => simp [lookupActive] at hd
  | cons q rest ih =>
      simp only [lookupActive] at hd
      split at hd
      · next heq =>
          obtain ⟨k, v⟩ := q
          simp_all
      · exact List.mem_cons_of_mem _ (ih hd)

theorem lookupActive_removeKey_self (l : List (String × DownloadInfo))
    (i : String) : lookupActive (removeKey l i) i = none := by
  induction l with
  | nil => simp [removeKey, lookupActive]
  | cons q rest ih =>
      simp only [removeKey]
      split
      · exact ih
      · next hne => simp [lookupActive, hne, ih]

theorem lookupActive_eq_none (l : List (String × DownloadInfo))
    (i : String) (hl : ∀ p ∈ l, p.1 ≠ i) : lookupActive l i = none := by
  induction l with
  | nil => simp [lookupActive]
  | cons q rest ih =>
      have hq : q.1 ≠ i := hl q (List.mem_cons_self _ _)
      simp only [lookupActive]
      rw [if_neg hq]
      exact ih fun p hp => hl p (List.mem_cons_of_mem _ hp)

theorem lookupHistory_eq_none (h : List DownloadInfo) (i : String)
    (hl : ∀ d ∈ h, d.id ≠ i) : lookupHistory h i = none := by
  induction h with
  | nil => simp [lookupHistory]
  | cons d rest ih =>
      have hd : d.id ≠ i := hl d (List.mem_cons_self _ _)
      simp only [lookupHistory]
      rw [if_neg hd]
      exact ih fun x hx => hl x (List.mem_cons_of_mem _ hx)

/-- In `_download_game`, `success = True` after the `try` block forces
`error_message = None` (it is initialized to `None` and written only in
the `except` clause, which also sets `success = False`). -/
theorem bodyError_of_success (r : BodyResult)
    (hs : bodySuccess r = true) : bodyError r = none := by
  rcases r with ⟨o, lc, fc⟩
  cases o with
  | ok _ => rfl
  | error m => simp [bodySuccess] at hs

/-! ### Preservation of the invariant by every event -/

theorem inv_submit (cfg : Config) (s : ManagerState) (i : String)
    (req : DownloadRequest) (name : String) (now : Nat) (h : Inv cfg s) :
    Inv cfg (add_to_queue s i req name now) := by
  constructor
  · simpa [add_to_queue] using h.active_le
  · simpa [add_to_queue] using h.hist_le
  · intro t ht
    simp only [add_to_queue, List.mem_append, List.mem_singleton] at ht
    rcases ht with ht | ht
    · exact h.queue_rec t ht
    · subst ht; simp
  · intro p hp
    exact h.active_rec p (by simpa [add_to_queue] using hp)
  · intro d hd
    exact h.hist_rec d (by simpa [add_to_queue] using hd)

theorem inv_dispatch (cfg : Config) (s : ManagerState) (h : Inv cfg s) :
    Inv cfg (processQueueStep cfg s).1 := by
  rcases hq : s.download_queue with _ | ⟨⟨i, req, info⟩, rest⟩
  · simpa only [processQueueStep, hq] using h
  · simp only [processQueueStep, hq]
    split
    · next hlt =>
        obtain ⟨hid, hst, herr⟩ :=
          h.queue_rec (i, req, info) (by rw [hq]; exact List.mem_cons_self _ _)
        constructor
        · simpa using hlt
        · simpa using h.hist_le
        · intro t ht
          refine h.queue_rec t ?_
          rw [hq]
          exact List.mem_cons_of_mem _ (by simpa using ht)
        · intro p hp
          simp only [List.mem_append, List.mem_singleton] at hp
          rcases hp with hp | hp
          · exact h.active_rec p (by simpa using hp)
          · subst hp
            exact ⟨hid, rfl, herr⟩
        · intro d hd
          exact h.hist_rec d (by simpa using hd)
    · exact h

theorem inv_finalizeDownload (cfg : Config) (i : String) (success : Bool)
    (err : Option String) (now : Nat) (s : ManagerState) (h : Inv cfg s)
    (hce : success = true → err = none) :
    Inv cfg (finalizeDownload cfg i success err now s) := by
  rcases hl : lookupActive s.active_downloads i with _ | d
  · simpa only [finalizeDownload, hl] using h
  · obtain ⟨hid, hst, herr⟩ := h.active_rec (i, d) (lookupActive_mem _ _ _ hl)
    simp only [finalizeDownload, hl]
    constructor
    · exact le_trans (length_removeKey_le _ _) h.active_le
    · exact insertHistory_length_le _ _ _ h.hist_le
    · intro t ht
      exact h.queue_rec t (by simpa using ht)
    · intro p hp
      exact h.active_rec p (mem_removeKey _ _ _ (by simpa using hp))
    · intro x hx
      rcases mem_insertHistory _ _ _ _ (by simpa using hx) with hx' | hx'
      · subst hx'
        cases success with
        | true =>
            refine ⟨Or.inl rfl, fun _ => ?_⟩
            simpa using hce rfl
        | false =>
            exact ⟨Or.inr (Or.inl rfl), fun hc => absurd rfl hc⟩
      · exact h.hist_rec x hx'

theorem inv_cancel (cfg : Config) (s : ManagerState) (i : String)
    (now : Nat) (h : Inv cfg s) :
    Inv cfg (cancel_download cfg s i now).2 := by
  rcases hl : lookupActive s.active_downloads i with _ | d
  · simpa only [cancel_download, hl] using h
  · obtain ⟨hid, hst, herr⟩ := h.active_rec (i, d) (lookupActive_mem _ _ _ hl)
    simp only [cancel_download, hl]
    constructor
    · exact le_trans (length_removeKey_le _ _) h.active_le
    · exact insertHistory_length_le _ _ _ h.hist_le
    · intro t ht
      exact h.queue_rec t (by simpa using ht)
    · intro p hp
      exact h.active_rec p (mem_removeKey _ _ _ (by simpa using hp))
    · intro x hx
      rcases mem_insertHistory _ _ _ _ (by simpa using hx) with hx' | hx'
      · subst hx'
        exact ⟨Or.inr (Or.inr rfl), fun _ => by simpa using herr⟩
      · exact h.hist_rec x hx'

theorem inv_step (cfg : Config) (s : ManagerState) (e : Event)
    (h : Inv cfg s) : Inv cfg (step cfg s e) := by
  cases e with
  | submit i req name now => exact inv_submit cfg s i req name now h
  | dispatch => exact inv_dispatch cfg s h
  | finalize i req sim now =>
      exact inv_finalizeDownload cfg i _ _ now s h
        (fun hs => bodyError_of_success _ hs)
  | cancel i now => exact inv_cancel cfg s i now h

theorem inv_run (cfg : Config) (s : ManagerState) (es : List Event)
    (h : Inv cfg s) : Inv cfg (run cfg s es) := by
  induction es generalizing s with
  | nil => exact h
  | cons e es ih => exact ih _ (inv_step cfg s e h)

theorem inv_init (cfg : Config) : Inv cfg initState := by
  constructor <;> simp [initState]

theorem inv_reachable (cfg : Config) (s : ManagerState)
    (h : Reachable cfg s) : Inv cfg s := by
  obtain ⟨es, rfl⟩ := h
  exact inv_run cfg initState es (inv_init cfg)

/-! ### FIFO dispatch order -/

theorem run_append (cfg : Config) (s : ManagerState) (es : List Event)
    (e : Event) : run cfg s (es ++ [e]) = step cfg (run cfg s es) e := by
  induction es generalizing s with
  | nil => rfl
  | cons e' es ih => simpa [run] using ih (step cfg s e')

theorem download_queue_cancel (cfg : Config) (s : ManagerState)
    (i : String) (now : Nat) :
    ((cancel_download cfg s i now).2).download_queue = s.download_queue := by
  rcases hl : lookupActive s.active_downloads i with _ | d <;>
    simp [cancel_download, hl]

theorem download_queue_finalize (cfg : Config) (i : String) (b : Bool)
    (err : Option String) (now : Nat) (s : ManagerState) :
    (finalizeDownload cfg i b err now s).download_queue =
      s.download_queue := by
  rcases hl : lookupActive s.active_downloads i with _ | d <;>
    simp [finalizeDownload, hl]

/-- The scheduler removes jobs only from the queue's front and
submissions append only at its tail, so along any run the ids dispatched
so far followed by the ids still queued are exactly the submitted ids in
submission order. -/
theorem dispatchLog_append_queueIds (cfg : Config) (s : ManagerState)
    (es : List Event) :
    dispatchLog cfg s es ++ queueIds (run cfg s es) =
      queueIds s ++ submittedIds es := by
  induction es generalizing s with
  | nil => simp [dispatchLog, run, submittedIds]
  | cons e es ih =>
      cases e with
      | submit i req name now =>
          simp only [dispatchLog, submittedIds, run, step]
          rw [ih]
          simp [add_to_queue, queueIds]
      | dispatch =>
          rcases hq : s.download_queue with _ | ⟨⟨i, req, info⟩, rest⟩
          · have hp : processQueueStep cfg s = (s, none) := by
              simp [processQueueStep, hq]
            simp only [dispatchLog, run, step, hp]
            exact ih s
          · by_cases hlt : s.active_downloads.length < cfg.maxConcurrent
            · have hp : processQueueStep cfg s =
                ({ s with
                    download_queue := rest
                    active_downloads := s.active_downloads ++
                      [(i, { info with
                              status := DownloadStatus.downloading })]
                    futures := s.futures ++ [i] }, some i) := by
                simp [processQueueStep, hq, hlt]
              simp only [dispatchLog, run, step, hp]
              rw [List.cons_append, ih]
              simp [queueIds, hq, submittedIds]
            · have hp : processQueueStep cfg s = (s, none) := by
                simp [processQueueStep, hq, hlt]
              simp only [dispatchLog, run, step, hp]
              rw [ih]
              simp [queueIds, hq, submittedIds]
      | finalize i req sim now =>
          simp only [dispatchLog, submittedIds, run, step]
          rw [ih]
          simp [queueIds, downloadGame, download_queue_finalize]
      | cancel i now =>
          simp only [dispatchLog, submittedIds, run, step]
          rw [ih]
          simp [queueIds, download_queue_cancel]

/-! ### Shape of the history list -/

theorem insertHistory_head (maxH : Nat) (hcap : 1 ≤ maxH)
    (d : DownloadInfo) (h : List DownloadInfo) :
    (insertHistory maxH d h).head? = some d := by
  simp only [insertHistory]
  split
  · next hc =>
      rcases h with _ | ⟨y, t⟩
      · simp only [List.length_cons, List.length_nil] at hc
        omega
      · rw [List.dropLast_cons₂]
        rfl
  · rfl

theorem insertHistory_eq_take (maxH : Nat) (d : DownloadInfo)
    (h : List DownloadInfo) (hh : h.length ≤ maxH) :
    insertHistory maxH d h = (d :: h).take maxH := by
  simp only [insertHistory]
  split
  · next hc =>
      have hlen : h.length = maxH := by
        simp only [List.length_cons] at hc
        omega
      rw [List.dropLast_eq_take]
      simp [hlen]
  · next hc =>
      rw [List.take_of_length_le]
      simp only [List.length_cons]
      simp only [List.length_cons, Nat.not_lt] at hc
      omega

theorem filter_insertHistory_single (maxH : Nat) (hcap : 1 ≤ maxH)
    (i : String) (d : DownloadInfo) (h : List DownloadInfo)
    (hdi : d.id = i) (hh : ∀ x ∈ h, x.id ≠ i) :
    ((insertHistory maxH d h).filter (fun x => x.id == i)).length = 1 := by
  have hcons : ∀ t : List DownloadInfo, (∀ x ∈ t, x.id ≠ i) →
      (d :: t).filter (fun x => x.id == i) = [d] := by
    intro t ht
    rw [List.filter_cons_of_pos (by simp [hdi])]
    rw [List.filter_eq_nil_iff.mpr (by intro a ha; simp [ht a ha])]
  simp only [insertHistory]
  split
  · next hc =>
      rcases h with _ | ⟨y, t⟩
      · simp only [List.length_cons, List.length_nil] at hc
        omega
      · rw [List.dropLast_cons₂]
        rw [hcons _ (fun x hx => hh x (List.mem_of_mem_dropLast hx))]
        rfl
  · rw [hcons _ hh]
    rfl

theorem finalizeDownload_spec (cfg : Config) (i : String) (success : Bool)
    (err : Option String) (now : Nat) (s : ManagerState)
    (d : DownloadInfo) (hd : lookupActive s.active_downloads i = some d) :
    finalizeDownload cfg i success err now s =
      { s with
        download_history :=
          insertHistory cfg.maxHistorySize (finalRecord d success err now)
            s.download_history
        active_downloads := removeKey s.active_downloads i
        futures := s.futures.erase i } := by
  simp [finalizeDownload, hd, finalRecord]

/-! ### Freshness: an identifier never submitted occurs nowhere -/

theorem notPresent_step (cfg : Config) (s : ManagerState) (e : Event)
    (i : String) (h : NotPresent i s) (he : ¬ submitsId e i) :
    NotPresent i (step cfg s e) := by
  obtain ⟨hqu, hac, hhi⟩ := h
  cases e with
  | submit j req name now =>
      refine ⟨?_, hac, hhi⟩
      intro t ht
      simp only [step, add_to_queue, List.mem_append,
        List.mem_singleton] at ht
      rcases ht with ht | ht
      · exact hqu t ht
      · subst ht
        exact ⟨he, he⟩
  | dispatch =>
      rcases hq : s.download_queue with _ | ⟨⟨j, req, info⟩, rest⟩
      · simpa only [step, processQueueStep, hq] using ⟨hqu, hac, hhi⟩
      · simp only [step, processQueueStep, hq]
        split
        · obtain ⟨hj, hjid⟩ :=
            hqu (j, req, info) (by rw [hq]; exact List.mem_cons_self _ _)
          refine ⟨?_, ?_, hhi⟩
          · intro t ht
            exact hqu t
              (by rw [hq]; exact List.mem_cons_of_mem _ (by simpa using ht))
          · intro p hp
            simp only [List.mem_append, List.mem_singleton] at hp
            rcases hp with hp | hp
            · exact hac p (by simpa using hp)
            · subst hp
              exact ⟨hj, hjid⟩
        · exact ⟨hqu, hac, hhi⟩
  | finalize j req sim now =>
      rcases hl : lookupActive s.active_downloads j with _ | d
      · simpa only [step, downloadGame, finalizeDownload, hl] using
          ⟨hqu, hac, hhi⟩
      · obtain ⟨hjne, hdne⟩ := hac (j, d) (lookupActive_mem _ _ _ hl)
        simp only [step, downloadGame,
          finalizeDownload_spec cfg j _ _ now s d hl]
        refine ⟨fun t ht => hqu t (by simpa using ht), ?_, ?_⟩
        · intro p hp
          exact hac p (mem_removeKey _ _ _ (by simpa using hp))
        · intro x hx
          rcases mem_insertHistory _ _ _ _ (by simpa using hx) with hx' | hx'
          · subst hx'
            simpa [finalRecord] using hdne
          · exact hhi x hx'
  | cancel j now =>
      rcases hl : lookupActive s.active_downloads j with _ | d
      · simpa only [step, cancel_download, hl] using ⟨hqu, hac, hhi⟩
      · obtain ⟨hjne, hdne⟩ := hac (j, d) (lookupActive_mem _ _ _ hl)
        simp only [step, cancel_download, hl]
        refine ⟨fun t ht => hqu t (by simpa using ht), ?_, ?_⟩
        · intro p hp
          exact hac p (mem_removeKey _ _ _ (by simpa using hp))
        · intro x hx
          rcases mem_insertHistory _ _ _ _ (by simpa using hx) with hx' | hx'
          · subst hx'
            simpa using hdne
          · exact hhi x hx'

theorem notPresent_run (cfg : Config) (s : ManagerState) (es : List Event)
    (i : String) (h : NotPresent i s) (hi : i ∉ submittedIds es) :
    NotPresent i (run cfg s es) := by
  induction es generalizing s with
  | nil => exact h
  | cons e es ih =>
      cases e with
      | submit j req name now =>
          simp only [submittedIds, List.mem_cons] at hi
          push_neg at hi
          exact ih _ (notPresent_step cfg s _ i h
            (by simpa [submitsId] using Ne.symm hi.1)) hi.2
      | dispatch =>
          exact ih _ (notPresent_step cfg s _ i h (by simp [submitsId]))
            (by simpa [submittedIds] using hi)
      | finalize j req sim now =>
          exact ih _ (notPresent_step cfg s _ i h (by simp [submitsId]))
            (by simpa [submittedIds] using hi)
      | cancel j now =>
          exact ih _ (notPresent_step cfg s _ i h (by simp [submitsId]))
            (by simpa [submittedIds] using hi)

theorem notPresent_init (i : String) : NotPresent i initState := by
  refine ⟨?_, ?_, ?_⟩ <;> intro x hx <;> simp [initState] at hx

theorem get_download_status_of_notPresent (s : ManagerState) (i : String)
    (h : NotPresent i s) : get_download_status s i = none := by
  obtain ⟨hqu, hac, hhi⟩ := h
  have h1 : lookupActive s.active_downloads i = none :=
    lookupActive_eq_none _ _ fun p hp => (hac p hp).1
  have h2 : lookupHistory s.download_history i = none :=
    lookupHistory_eq_none _ _ fun d hd => hhi d hd
  simp [get_download_status, h1, h2]

/-! ### Visibility to getStatus along a continuation trace -/

theorem notPresent_notVisible (i : String) (st : ManagerState)
    (h : NotPresent i st) : NotVisible i st :=
  ⟨fun p hp => (h.2.1 p hp).1, h.2.2⟩

theorem get_download_status_of_notVisible (st : ManagerState) (i : String)
    (h : NotVisible i st) : get_download_status st i = none := by
  have h1 : lookupActive st.active_downloads i = none :=
    lookupActive_eq_none _ _ h.1
  have h2 : lookupHistory st.download_history i = none :=
    lookupHistory_eq_none _ _ h.2
  simp [get_download_status, h1, h2]

theorem run_split (cfg : Config) (s : ManagerState) (l₁ l₂ : List Event) :
    run cfg s (l₁ ++ l₂) = run cfg (run cfg s l₁) l₂ := by
  induction l₁ generalizing s with
  | nil => rfl
  | cons e l₁ ih =>
      simp only [List.cons_append, run]
      exact ih (step cfg s e)

theorem dispatchLog_split (cfg : Config) (s : ManagerState)
    (l₁ l₂ : List Event) :
    dispatchLog cfg s (l₁ ++ l₂) =
      dispatchLog cfg s l₁ ++ dispatchLog cfg (run cfg s l₁) l₂ := by
  induction l₁ generalizing s with
  | nil => rfl
  | cons e l₁ ih =>
      cases e with
      | submit j req name now =>
          simp only [List.cons_append, dispatchLog, run]
          exact ih (step cfg s (.submit j req name now))
      | dispatch =>
          rcases hp : processQueueStep cfg s with ⟨s', oi⟩
          rcases oi with _ | i
          · simp only [List.cons_append, dispatchLog, hp, run, step]
            exact ih s'
          · simp only [List.cons_append, dispatchLog, hp, run, step]
            rw [show l₁.append l₂ = l₁ ++ l₂ from rfl, ih s']
      | finalize j req sim now =>
          simp only [List.cons_append, dispatchLog, run]
          exact ih (step cfg s (.finalize j req sim now))
      | cancel j now =>
          simp only [List.cons_append, dispatchLog, run]
          exact ih (step cfg s (.cancel j now))

/-- Along any continuation in which the scheduler never dispatches `x`,
an identifier invisible to `get_download_status` stays invisible: only a
dispatch of `x` itself can move it into the active set, and only an
active entry can be finalized or cancelled into history. -/
theorem notVisible_run (cfg : Config) (s : ManagerState) (es : List Event)
    (x : String) (hInv : Inv cfg s) (hv : NotVisible x s)
    (hnd : x ∉ dispatchLog cfg s es) : NotVisible x (run cfg s es) := by
  induction es generalizing s with
  | nil => exact hv
  | cons e es ih =>
      cases e with
      | submit j req name now =>
          simp only [run, step]
          refine ih (add_to_queue s j req name now)
            (inv_submit cfg s j req name now hInv) ⟨?_, ?_⟩ ?_
          · intro p hp
            exact hv.1 p (by simpa [add_to_queue] using hp)
          · intro d hd
            exact hv.2 d (by simpa [add_to_queue] using hd)
          · exact hnd
      | dispatch =>
          rcases hq : s.download_queue with _ | ⟨⟨j, req, info⟩, rest⟩
          · have hp : processQueueStep cfg s = (s, none) := by
              simp [processQueueStep, hq]
            simp only [run, step, hp]
            refine ih s hInv hv ?_
            simpa only [dispatchLog, hp] using hnd
          · by_cases hlt : s.active_downloads.length < cfg.maxConcurrent
            · have hp : processQueueStep cfg s =
                  ({ s with
                      download_queue := rest
                      active_downloads := s.active_downloads ++
                        [(j, { info with
                                status := DownloadStatus.downloading })]
                      futures := s.futures ++ [j] }, some j) := by
                simp [processQueueStep, hq, hlt]
              have hnd' : x ∉ j :: dispatchLog cfg
                  ({ s with
                      download_queue := rest
                      active_downloads := s.active_downloads ++
                        [(j, { info with
                                status := DownloadStatus.downloading })]
                      futures := s.futures ++ [j] } : ManagerState) es := by
                simpa only [dispatchLog, hp] using hnd
              have hjx : j ≠ x := fun hc =>
                hnd' (hc ▸ List.mem_cons_self _ _)
              have hInv' := inv_dispatch cfg s hInv
              rw [hp] at hInv'
              simp only [run, step, hp]
              refine ih _ hInv' ⟨?_, ?_⟩
                (fun hc => hnd' (List.mem_cons_of_mem _ hc))
              · intro p hp'
                simp only [List.mem_append, List.mem_singleton] at hp'
                rcases hp' with hp' | hp'
                · exact hv.1 p (by simpa using hp')
                · subst hp'
                  exact hjx
              · intro d hd
                exact hv.2 d (by simpa using hd)
            · have hp : processQueueStep cfg s = (s, none) := by
                simp [processQueueStep, hq, hlt]
              simp only [run, step, hp]
              refine ih s hInv hv ?_
              simpa only [dispatchLog, hp] using hnd
      | finalize j req sim now =>
          rcases hl : lookupActive s.active_downloads j with _ | dl
          · have hstep : step cfg s (.finalize j req sim now) = s := by
              simp [step, downloadGame, finalizeDownload, hl]
            have hnd' : x ∉ dispatchLog cfg
                (step cfg s (.finalize j req sim now)) es := hnd
            rw [hstep] at hnd'
            simp only [run, hstep]
            exact ih s hInv hv hnd' 
          · have hmem := lookupActive_mem _ _ _ hl
            have hdid : dl.id = j := (hInv.active_rec (j, dl) hmem).1
            have hjx : j ≠ x := hv.1 (j, dl) hmem
            have hInv' := inv_step cfg s (.finalize j req sim now) hInv
            have hstep : step cfg s (.finalize j req sim now) =
                { s with
                  download_history :=
                    insertHistory cfg.maxHistorySize
                      (finalRecord dl
                        (bodySuccess (downloadGameBody req sim))
                        (bodyError (downloadGameBody req sim)) now)
                      s.download_history
                  active_downloads := removeKey s.active_downloads j
                  futures := s.futures.erase j } := by
              simp only [step, downloadGame]
              exact finalizeDownload_spec cfg j _ _ now s dl hl
            have hnd' : x ∉ dispatchLog cfg
                (step cfg s (.finalize j req sim now)) es := hnd
            rw [hstep] at hInv' hnd'
            simp only [run, hstep]
            refine ih _ hInv' ⟨?_, ?_⟩ hnd'
            · intro p hp
              exact hv.1 p (mem_removeKey _ _ _ (by simpa using hp))
            · intro d hd
              rcases mem_insertHistory _ _ _ _ (by simpa using hd)
                with hd' | hd'
              · subst hd'
                simpa [finalRecord, hdid] using hjx
              · exact hv.2 d hd'
      | cancel j now =>
          rcases hl : lookupActive s.active_downloads j with _ | dl
          · have hstep : step cfg s (.cancel j now) = s := by
              simp [step, cancel_download, hl]
            have hnd' : x ∉ dispatchLog cfg
                (step cfg s (.cancel j now)) es := hnd
            rw [hstep] at hnd'
            simp only [run, hstep]
            exact ih s hInv hv hnd' 
          · have hmem := lookupActive_mem _ _ _ hl
            have hdid : dl.id = j := (hInv.active_rec (j, dl) hmem).1
            have hjx : j ≠ x := hv.1 (j, dl) hmem
            have hInv' := inv_step cfg s (.cancel j now) hInv
            have hstep : step cfg s (.cancel j now) =
                { s with
                  download_history :=
                    insertHistory cfg.maxHistorySize
                      { dl with
                        status := .canceled
                        end_time := some now } s.download_history
                  active_downloads := removeKey s.active_downloads j
                  futures := s.futures.erase j } := by
              simp [step, cancel_download, hl]
            have hnd' : x ∉ dispatchLog cfg
                (step cfg s (.cancel j now)) es := hnd
            rw [hstep] at hInv' hnd'
            simp only [run, hstep]
            refine ih _ hInv' ⟨?_, ?_⟩ hnd'
            · intro p hp
              exact hv.1 p (mem_removeKey _ _ _ (by simpa using hp))
            · intro d hd
              rcases mem_insertHistory _ _ _ _ (by simpa using hd)
                with hd' | hd'
              · subst hd'
                simpa [hdid] using hjx
              · exact hv.2 d hd'

/-! ### Behaviour of the dispatch body -/

theorem body_installDir_truthy (req : DownloadRequest) (sim : FetchSim)
    (dir : String) (hdir : req.install_dir = some dir) (hne : dir ≠ "") :
    downloadGameBody req sim =
      { outcome := .error "name 'Path' is not defined"
        loginCalled := false
        fetchCalled := false } := by
  simp [downloadGameBody, hdir, hne]

theorem bodyAfterPath_fetch_outcome (req : DownloadRequest)
    (sim : FetchSim) (hf : (bodyAfterPath req sim).fetchCalled = true) :
    (bodyAfterPath req sim).outcome = fetchOutcome sim.fetch := by
  by_cases ha : req.anonymous = true
  · simp [bodyAfterPath, ha]
  · rcases hl : sim.login with _ | _ | m
    · simp [bodyAfterPath, ha, hl]
    · simp [bodyAfterPath, ha, hl] at hf
    · simp [bodyAfterPath, ha, hl] at hf

theorem body_fetch_outcome (req : DownloadRequest) (sim : FetchSim)
    (hf : (downloadGameBody req sim).fetchCalled = true) :
    (downloadGameBody req sim).outcome = fetchOutcome sim.fetch := by
  rcases hdir : req.install_dir with _ | dir
  · simp only [downloadGameBody, hdir] at hf ⊢
    exact bodyAfterPath_fetch_outcome req sim hf
  · by_cases hne : dir = ""
    · subst hne
      simp only [downloadGameBody, hdir, if_pos rfl] at hf ⊢
      exact bodyAfterPath_fetch_outcome req sim hf
    · rw [body_installDir_truthy req sim dir hdir hne] at hf
      simp at hf

theorem body_login_failed (req : DownloadRequest) (sim : FetchSim)
    (ha : req.anonymous = false) (hl : sim.login = .failed) :
    (downloadGameBody req sim).fetchCalled = false ∧
    ∃ m, (downloadGameBody req sim).outcome = Except.error m ∧ m ≠ "" := by
  rcases hdir : req.install_dir with _ | dir
  · refine ⟨?_, "Steam login failed", ?_, by decide⟩ <;>
      simp [downloadGameBody, bodyAfterPath, hdir, ha, hl]
  · by_cases hne : dir = ""
    · subst hne
      refine ⟨?_, "Steam login failed", ?_, by decide⟩ <;>
        simp [downloadGameBody, bodyAfterPath, hdir, ha, hl]
    · rw [body_installDir_truthy req sim dir hdir hne]
      exact ⟨rfl, "name 'Path' is not defined", rfl, by decide⟩

/-! ### Claim theorems -/

/-- C9: for every two jobs where one was submitted before the other and
both are eventually dispatched, the first is dispatched (marked
`Downloading` and entered into the active set) before the second: along
every execution of the scheduling loop, the sequence of dispatched ids
is an initial segment of the sequence of submitted ids, so dispatch
order equals submission order subject only to capacity gating. -/
theorem C9_fifo_dispatch_order (cfg : Config) (es : List Event) :
    dispatchLog cfg initState es =
      (submittedIds es).take (dispatchLog cfg initState es).length := by
  have h := dispatchLog_append_queueIds cfg initState es
  have h0 : queueIds initState = [] := rfl
  rw [h0, List.nil_append] at h
  rw [← h, List.take_left]

/-- C6: in every reachable state the active set is within the configured
concurrency limit, every active record has status `Downloading`, and the
scheduler dequeues nothing when the active-set size is not strictly
below the limit. -/
theorem C6_concurrency_limit (cfg : Config) (s : ManagerState)
    (h : Reachable cfg s) :
    s.active_downloads.length ≤ cfg.maxConcurrent ∧
    (∀ p ∈ s.active_downloads, p.2.status = .downloading) ∧
    (¬ s.active_downloads.length < cfg.maxConcurrent →
      processQueueStep cfg s = (s, none)) := by
  refine ⟨(inv_reachable cfg s h).active_le,
    fun p hp => ((inv_reachable cfg s h).active_rec p hp).2.1, ?_⟩
  intro hge
  rcases hq : s.download_queue with _ | ⟨⟨i, req, info⟩, rest⟩ <;>
    simp [processQueueStep, hq, hge]

/-- C6 witness: after submitting two jobs and one dispatch under
concurrency limit 1, the active set has size 1 ≤ 1, its record is
`Downloading`, and a further scheduler iteration dequeues nothing. -/
theorem C6_concurrency_limit_witness :
    ((run cfgDefault initState
        [.submit "a" (reqAnon 10) "G" 0, .submit "b" (reqAnon 11) "G" 1,
         .dispatch]).active_downloads.length ≤ cfgDefault.maxConcurrent) ∧
    processQueueStep cfgDefault
        (run cfgDefault initState
          [.submit "a" (reqAnon 10) "G" 0, .submit "b" (reqAnon 11) "G" 1,
           .dispatch]) =
      (run cfgDefault initState
        [.submit "a" (reqAnon 10) "G" 0, .submit "b" (reqAnon 11) "G" 1,
         .dispatch], none) := by
  refine ⟨(C6_concurrency_limit cfgDefault _ ⟨_, rfl⟩).1, ?_⟩
  exact (C6_concurrency_limit cfgDefault _ ⟨_, rfl⟩).2.2 (by decide)

/-- C10: in every reachable state, every record held in the queue, the
active set or the history whose status is not `Failed` carries a null
`error_message`: submission initializes it to `None`, dispatch leaves it,
successful completion overwrites it with `None`, and cancellation never
sets it. -/
theorem C10_error_message_only_failed (cfg : Config) (s : ManagerState)
    (h : Reachable cfg s) (d : DownloadInfo) (hd : d ∈ allRecords s)
    (hs : d.status ≠ .failed) : d.error_message = none := by
  have hInv := inv_reachable cfg s h
  simp only [allRecords, List.mem_append, List.mem_map] at hd
  rcases hd with (⟨t, ht, rfl⟩ | ⟨p, hp, rfl⟩) | hd
  · exact (hInv.queue_rec t ht).2.2
  · exact (hInv.active_rec p hp).2.2
  · exact (hInv.hist_rec d hd).2 hs

/-- C10 witness: the canceled record produced by submitting, dispatching
and cancelling job "a" is in the history of a reachable state, is not
`Failed`, and carries a null error message. -/
theorem C10_error_message_only_failed_witness :
    ({ recA with status := .canceled, end_time := some 2 } :
        DownloadInfo).error_message = none :=
  C10_error_message_only_failed cfgDefault
    (run cfgDefault initState
      [.submit "a" (reqAnon 10) "G" 0, .dispatch, .cancel "a" 2])
    ⟨_, rfl⟩ _ (by decide) (by decide)

/-- C5: in every reachable state the history length never exceeds the
configured maximum; each insertion is an insertion at the head followed
by unconditional truncation of the tail entry when the maximum is
exceeded (equivalently, prepending and keeping the newest `maxH`
entries, so history is ordered newest-first); and with the maximum set
to 2, completing three distinct jobs 1, 2, 3 in order leaves history
`[3, 2]`. -/
theorem C5_history_bounded_newest_first :
    (∀ cfg s, Reachable cfg s →
      s.download_history.length ≤ cfg.maxHistorySize) ∧
    (∀ (maxH : Nat) (d : DownloadInfo) (h : List DownloadInfo),
      h.length ≤ maxH → insertHistory maxH d h = (d :: h).take maxH) ∧
    (run cfgCapTwo initState esCapTwo).download_history.map
      (fun d => d.app_id) = [3, 2] := by
  refine ⟨fun cfg s h => (inv_reachable cfg s h).hist_le,
    insertHistory_eq_take, by decide⟩

/-- C5 witness: the cap-2 run is concrete and its history bound holds at
history cap 2 with the three completions. -/
theorem C5_history_bounded_newest_first_witness :
    (run cfgCapTwo initState esCapTwo).download_history.length ≤
      cfgCapTwo.maxHistorySize ∧
    insertHistory 2 recA [] = [recA] :=
  ⟨C5_history_bounded_newest_first.1 cfgCapTwo _ ⟨_, rfl⟩,
   (C5_history_bounded_newest_first.2.1 2 recA [] (by decide)).trans rfl⟩

/-- C1 counterexample: submit job "a" (it is queued, not dispatched);
`cancel_download` on "a" returns `False` and leaves the state unchanged —
the job is not transitioned to `Canceled`, not removed from the queue and
not moved to history — and after the next scheduler iteration job "a" is
`Downloading`.  This refutes the claim that cancel on a queued job
returns true, cancels it and prevents it from ever downloading. -/
theorem C1_cancel_queued_counterexample :
    (cancel_download cfgDefault
      (run cfgDefault initState [.submit "a" (reqAnon 10) "G" 0]) "a" 1).1
      = false ∧
    (cancel_download cfgDefault
      (run cfgDefault initState [.submit "a" (reqAnon 10) "G" 0]) "a" 1).2
      = run cfgDefault initState [.submit "a" (reqAnon 10) "G" 0] ∧
    (run cfgDefault initState
      [.submit "a" (reqAnon 10) "G" 0, .cancel "a" 1,
       .dispatch]).active_downloads.map (fun p => (p.1, p.2.status)) =
      [("a", .downloading)] := by
  refine ⟨by decide, by decide, by decide⟩

/-- C1 (amended): `cancel_download` examines only the active set, so on
any identifier that is not active — in particular a job that is still
queued and not yet dispatched, or an identifier that is neither queued
nor active — it returns `False` and leaves the state unchanged; a queued
job therefore stays in the queue and may later transition to
`Downloading`. -/
theorem C1_cancel_only_active (cfg : Config) (s : ManagerState)
    (i : String) (now : Nat)
    (h : lookupActive s.active_downloads i = none) :
    cancel_download cfg s i now = (false, s) := by
  simp [cancel_download, h]

/-- C1 witness: the queued job "a" is not active, and cancelling it
returns `False` with the state unchanged. -/
theorem C1_cancel_only_active_witness :
    lookupActive (run cfgDefault initState
      [.submit "a" (reqAnon 10) "G" 0]).active_downloads "a" = none ∧
    cancel_download cfgDefault
      (run cfgDefault initState [.submit "a" (reqAnon 10) "G" 0]) "a" 1 =
      (false, run cfgDefault initState [.submit "a" (reqAnon 10) "G" 0]) :=
  ⟨by decide, C1_cancel_only_active cfgDefault _ "a" 1 (by decide)⟩

/-- C2 counterexample: immediately after submitting job "a" (still
queued, before any worker picks it up), `get_download_status` returns
`None` (not-found) rather than a record with status `Queued`, because it
consults only the active set and the history. -/
theorem C2_getStatus_counterexample :
    get_download_status (run cfgDefault initState
      [.submit "a" (reqAnon 10) "G" 0]) "a" = none := by
  decide

/-- C2 (amended): `get_download_status` consults only the active set and
then the history, with no side effects (it is a pure read of the state);
an identifier never returned by a submission is reported not-found, a
submission changes no `get_download_status` result, and a just-submitted
identifier is reported not-found (rather than as a `Queued` record) at
every point before a worker dispatches that job: after its submission,
any interleaving of further submissions, scheduler iterations,
finalizations and cancellations that does not dispatch this very job
still leaves it reported not-found. -/
theorem C2_getStatus_not_found (cfg : Config) (es₁ es₂ : List Event)
    (x : String) (req : DownloadRequest) (name : String) (now : Nat)
    (hx : x ∉ submittedIds es₁)
    (hnd : x ∉ dispatchLog cfg initState
      (es₁ ++ Event.submit x req name now :: es₂)) :
    get_download_status (run cfg initState es₁) x = none ∧
    (∀ (s : ManagerState) (y : String),
      get_download_status (add_to_queue s x req name now) y =
        get_download_status s y) ∧
    get_download_status
      (run cfg initState (es₁ ++ Event.submit x req name now :: es₂)) x =
      none := by
  have hnp : NotPresent x (run cfg initState es₁) :=
    notPresent_run cfg initState es₁ x (notPresent_init x) hx
  refine ⟨get_download_status_of_notPresent _ _ hnp, ?_, ?_⟩
  · intro s y
    simp [get_download_status, add_to_queue]
  · have hsplit :
        run cfg initState (es₁ ++ Event.submit x req name now :: es₂) =
          run cfg (step cfg (run cfg initState es₁)
            (Event.submit x req name now)) es₂ := by
      rw [run_split]
      rfl
    have hnd₂ : x ∉ dispatchLog cfg
        (step cfg (run cfg initState es₁)
          (Event.submit x req name now)) es₂ := by
      rw [dispatchLog_split] at hnd
      intro hmem
      apply hnd
      refine List.mem_append.mpr (Or.inr ?_)
      show x ∈ dispatchLog cfg (run cfg initState es₁)
        (Event.submit x req name now :: es₂)
      exact hmem
    have hv₂ : NotVisible x (step cfg (run cfg initState es₁)
        (Event.submit x req name now)) := by
      refine ⟨?_, ?_⟩
      · intro p hp
        exact (hnp.2.1 p (by simpa [step, add_to_queue] using hp)).1
      · intro d hd
        exact hnp.2.2 d (by simpa [step, add_to_queue] using hd)
    have hi₂ : Inv cfg (step cfg (run cfg initState es₁)
        (Event.submit x req name now)) :=
      inv_step cfg _ _ (inv_run cfg initState es₁ (inv_init cfg))
    rw [hsplit]
    exact get_download_status_of_notVisible _ _
      (notVisible_run cfg _ es₂ x hi₂ hv₂ hnd₂)

/-- C2 witness: "a" is never submitted in the prefix (one submission of
"b"); after submitting "a" and one scheduler iteration (which dispatches
"b", not "a"), "a" is still reported not-found, and it was not-found
before its submission as well. -/
theorem C2_getStatus_not_found_witness :
    get_download_status (run cfgDefault initState
      [.submit "b" (reqAnon 9) "G" 0]) "a" = none ∧
    get_download_status (run cfgDefault initState
      ([.submit "b" (reqAnon 9) "G" 0] ++
        Event.submit "a" (reqAnon 10) "G" 1 :: [.dispatch])) "a" = none :=
  ⟨(C2_getStatus_not_found cfgDefault [.submit "b" (reqAnon 9) "G" 0]
      [.dispatch] "a" (reqAnon 10) "G" 1 (by simp [submittedIds])
      (by decide)).1,
   (C2_getStatus_not_found cfgDefault [.submit "b" (reqAnon 9) "G" 0]
      [.dispatch] "a" (reqAnon 10) "G" 1 (by simp [submittedIds])
      (by decide)).2.2⟩

/-- C3 counterexample: with the install-directory override set to the
non-null empty string (falsy in Python, so `if request.install_dir:` is
not taken), the dispatch routine does not fail: it resolves the default
destination, invokes the fetch, and on a successful fetch records
`Completed` with a null error message.  This refutes the claim as stated
for every non-null override. -/
theorem C3_counterexample :
    reqEmptyDir.install_dir = some "" ∧
    (downloadGameBody reqEmptyDir simOk).fetchCalled = true ∧
    (run cfgDefault initState
      [.submit "c" reqEmptyDir "G" 0, .dispatch,
       .finalize "c" reqEmptyDir simOk 1]).download_history.map
      (fun d => (d.status, d.error_message)) = [(.completed, none)] := by
  refine ⟨rfl, by decide, by decide⟩

/-- C3 (amended): for every dispatched request whose install-directory
override is non-null and non-empty (truthy in Python), the dispatch
routine invokes neither the External Fetcher's login nor its fetch and
records terminal status `Failed` with the `NameError` text as the error
message, because the name `Path` is unbound in `downloader.py` and the
override resolution raises before any fetcher call. -/
theorem C3_path_unbound_failure (cfg : Config) (i : String)
    (req : DownloadRequest) (sim : FetchSim) (now : Nat)
    (s : ManagerState) (d : DownloadInfo) (dir : String)
    (hdir : req.install_dir = some dir) (hne : dir ≠ "")
    (hcap : 1 ≤ cfg.maxHistorySize)
    (hd : lookupActive s.active_downloads i = some d) :
    (downloadGameBody req sim).loginCalled = false ∧
    (downloadGameBody req sim).fetchCalled = false ∧
    (downloadGame cfg i req sim now s).download_history.head? =
      some (finalRecord d false (some "name 'Path' is not defined") now) ∧
    (finalRecord d false (some "name 'Path' is not defined") now).status
      = .failed := by
  have hb := body_installDir_truthy req sim dir hdir hne
  refine ⟨by rw [hb], by rw [hb], ?_, by simp [finalRecord]⟩
  simp only [downloadGame, hb, bodySuccess, bodyError]
  rw [finalizeDownload_spec cfg i false
    (some "name 'Path' is not defined") now s d hd]
  exact insertHistory_head _ hcap _ _

/-- C3 witness: dispatch job "p" whose request carries the truthy
override "/games/x"; the body calls neither login nor fetch, and the
history head is the `Failed` record with the `NameError` text. -/
theorem C3_path_unbound_failure_witness :
    (downloadGameBody reqPathDir simOk).loginCalled = false ∧
    (downloadGameBody reqPathDir simOk).fetchCalled = false ∧
    (downloadGame cfgDefault "p" reqPathDir simOk 1
      (run cfgDefault initState
        [.submit "p" reqPathDir "G" 0, .dispatch])).download_history.head? =
      some (finalRecord recP false (some "name 'Path' is not defined") 1) := by
  have h := C3_path_unbound_failure cfgDefault "p" reqPathDir simOk 1
    (run cfgDefault initState [.submit "p" reqPathDir "G" 0, .dispatch])
    recP "/games/x" rfl (by decide) (by decide) (by decide)
  exact ⟨h.1, h.2.1, h.2.2.1⟩

/-- C4: for a job currently in the active set of a reachable state, a
cancel and the worker's own terminal transition, in either order,
produce exactly one terminal transition and exactly one insertion of the
job into history: whichever operation runs second finds the job absent
from the active set and leaves the state unchanged (cancel then
returning `False`), and the job's record occurs exactly once in the
history afterwards. -/
theorem C4_cancel_finalize_exactly_once (cfg : Config) (s : ManagerState)
    (i : String) (d : DownloadInfo) (req : DownloadRequest)
    (sim : FetchSim) (now now' : Nat)
    (hre : Reachable cfg s)
    (hd : lookupActive s.active_downloads i = some d)
    (hh : i ∉ historyIds s)
    (hcap : 1 ≤ cfg.maxHistorySize) :
    ((cancel_download cfg s i now).1 = true ∧
      downloadGame cfg i req sim now' (cancel_download cfg s i now).2 =
        (cancel_download cfg s i now).2 ∧
      ((cancel_download cfg s i now).2.download_history.filter
        (fun x => x.id == i)).length = 1) ∧
    ((cancel_download cfg (downloadGame cfg i req sim now' s) i now).1 =
        false ∧
      (cancel_download cfg (downloadGame cfg i req sim now' s) i now).2 =
        downloadGame cfg i req sim now' s ∧
      ((downloadGame cfg i req sim now' s).download_history.filter
        (fun x => x.id == i)).length = 1) := by
  have hInv := inv_reachable cfg s hre
  have hdi : d.id = i :=
    (hInv.active_rec (i, d) (lookupActive_mem _ _ _ hd)).1
  have hhid : ∀ x ∈ s.download_history, x.id ≠ i := by
    intro x hx hcon
    exact hh (by simp only [historyIds]; exact List.mem_map.mpr ⟨x, hx, hcon⟩)
  constructor
  · simp only [cancel_download, hd]
    refine ⟨trivial, ?_, ?_⟩
    · simp [downloadGame, finalizeDownload, lookupActive_removeKey_self]
    · exact filter_insertHistory_single _ hcap i _ _ (by simpa using hdi)
        hhid
  · simp only [downloadGame,
      finalizeDownload_spec cfg i (bodySuccess (downloadGameBody req sim))
        (bodyError (downloadGameBody req sim)) now' s d hd]
    refine ⟨?_, ?_, ?_⟩
    · simp [cancel_download, lookupActive_removeKey_self]
    · simp [cancel_download, lookupActive_removeKey_self]
    · exact filter_insertHistory_single _ hcap i _ _
        (by simp [finalRecord, hdi]) hhid

/-- C4 witness: with job "a" active in a concrete reachable state with
empty history, cancel succeeds, the subsequent worker finalization is a
no-op, and the job occurs exactly once in history; in the opposite order
the worker finalizes and the subsequent cancel returns `False` leaving
the state unchanged. -/
theorem C4_cancel_finalize_exactly_once_witness :
    ((cancel_download cfgDefault
        (run cfgDefault initState
          [.submit "a" (reqAnon 10) "G" 0, .dispatch]) "a" 5).1 = true) ∧
    ((cancel_download cfgDefault
        (downloadGame cfgDefault "a" (reqAnon 10) simOk 5
          (run cfgDefault initState
            [.submit "a" (reqAnon 10) "G" 0, .dispatch])) "a" 5).1 =
      false) := by
  have h := C4_cancel_finalize_exactly_once cfgDefault
    (run cfgDefault initState [.submit "a" (reqAnon 10) "G" 0, .dispatch])
    "a" recA (reqAnon 10) simOk 5 5 ⟨_, rfl⟩ (by decide) (by decide)
    (by decide)
  exact ⟨h.1.1, h.2.1⟩

/-- C7: for a dispatched job still in the active set at finalization:
if the request requires authenticated access and login returns failure,
the job ends `Failed` with a descriptive (non-empty) error message and
fetch is never invoked; if fetch is invoked and succeeds, the job ends
`Completed` with progress 100, end time set and no error; if fetch is
invoked and reports failure, the job ends `Failed` with the non-empty
message "Steam download failed". -/
theorem C7_dispatch_outcomes (cfg : Config) (i : String)
    (req : DownloadRequest) (sim : FetchSim) (now : Nat)
    (s : ManagerState) (d : DownloadInfo)
    (hcap : 1 ≤ cfg.maxHistorySize)
    (hd : lookupActive s.active_downloads i = some d) :
    (req.anonymous = false → sim.login = .failed →
      (downloadGameBody req sim).fetchCalled = false ∧
      ∃ d' m,
        (downloadGame cfg i req sim now s).download_history.head? =
          some d' ∧
        d'.status = .failed ∧ d'.error_message = some m ∧ m ≠ "") ∧
    ((downloadGameBody req sim).fetchCalled = true → sim.fetch = .ok →
      (downloadGame cfg i req sim now s).download_history.head? =
        some (finalRecord d true none now) ∧
      (finalRecord d true none now).status = .completed ∧
      (finalRecord d true none now).progress = 100 ∧
      (finalRecord d true none now).end_time = some now ∧
      (finalRecord d true none now).error_message = none) ∧
    ((downloadGameBody req sim).fetchCalled = true → sim.fetch = .failed →
      (downloadGame cfg i req sim now s).download_history.head? =
        some (finalRecord d false (some "Steam download failed") now) ∧
      (finalRecord d false (some "Steam download failed") now).status =
        .failed ∧
      (finalRecord d false
        (some "Steam download failed") now).error_message =
        some "Steam download failed" ∧
      "Steam download failed" ≠ "") := by
  refine ⟨?_, ?_, ?_⟩
  · intro ha hl
    obtain ⟨hfc, m, hm, hmne⟩ := body_login_failed req sim ha hl
    have hsf : bodySuccess (downloadGameBody req sim) = false := by
      simp [bodySuccess, hm]
    have hbe : bodyError (downloadGameBody req sim) = some m := by
      simp [bodyError, hm]
    refine ⟨hfc, finalRecord d false (some m) now, m, ?_,
      by simp [finalRecord], by simp [finalRecord], hmne⟩
    simp only [downloadGame, hsf, hbe]
    rw [finalizeDownload_spec cfg i false (some m) now s d hd]
    exact insertHistory_head _ hcap _ _
  · intro hfc hok
    have hm : (downloadGameBody req sim).outcome = Except.ok () := by
      rw [body_fetch_outcome req sim hfc, hok]
      rfl
    have hsf : bodySuccess (downloadGameBody req sim) = true := by
      simp [bodySuccess, hm]
    have hbe : bodyError (downloadGameBody req sim) = none := by
      simp [bodyError, hm]
    refine ⟨?_, by simp [finalRecord], by simp [finalRecord],
      by simp [finalRecord], by simp [finalRecord]⟩
    simp only [downloadGame, hsf, hbe]
    rw [finalizeDownload_spec cfg i true none now s d hd]
    exact insertHistory_head _ hcap _ _
  · intro hfc hfail
    have hm : (downloadGameBody req sim).outcome =
        Except.error "Steam download failed" := by
      rw [body_fetch_outcome req sim hfc, hfail]
      rfl
    have hsf : bodySuccess (downloadGameBody req sim) = false := by
      simp [bodySuccess, hm]
    have hbe : bodyError (downloadGameBody req sim) =
        some "Steam download failed" := by
      simp [bodyError, hm]
    refine ⟨?_, by simp [finalRecord], by simp [finalRecord], by decide⟩
    simp only [downloadGame, hsf, hbe]
    rw [finalizeDownload_spec cfg i false
      (some "Steam download failed") now s d hd]
    exact insertHistory_head _ hcap _ _

/-- C7 witness: job "a" is active; with a collaborator whose fetch
returns `False` the finalized record is `Failed` with the non-empty
message "Steam download failed". -/
theorem C7_dispatch_outcomes_witness :
    (downloadGame cfgDefault "a" (reqAnon 10) simFetchFails 5
      (run cfgDefault initState
        [.submit "a" (reqAnon 10) "G" 0, .dispatch])).download_history.head? =
      some (finalRecord recA false (some "Steam download failed") 5) ∧
    (finalRecord recA false (some "Steam download failed") 5).status =
      .failed := by
  have h := (C7_dispatch_outcomes cfgDefault "a" (reqAnon 10) simFetchFails
    5 (run cfgDefault initState [.submit "a" (reqAnon 10) "G" 0, .dispatch])
    recA (by decide) (by decide)).2.2 (by decide) rfl
  exact ⟨h.1, h.2.1⟩

/-- C8: the worker routine catches every exception of the dispatch body
(`Path` resolution raising, login raising, fetch raising): its result is
a total function of the collaborator behaviour, so nothing propagates
out of the worker; for a job still active at finalization the job is
removed from the active set and its history record is terminal
(`Completed` or `Failed`), and whenever the body raised an exception
with text `m` the record is `Failed` with error message exactly `m`. -/
theorem C8_faults_contained (cfg : Config) (i : String)
    (req : DownloadRequest) (sim : FetchSim) (now : Nat)
    (s : ManagerState) (d : DownloadInfo)
    (hd : lookupActive s.active_downloads i = some d) :
    lookupActive (downloadGame cfg i req sim now s).active_downloads i =
      none ∧
    (1 ≤ cfg.maxHistorySize →
      ∃ d',
        (downloadGame cfg i req sim now s).download_history.head? =
          some d' ∧
        (d'.status = .completed ∨ d'.status = .failed) ∧
        ∀ m, (downloadGameBody req sim).outcome = Except.error m →
          d'.status = .failed ∧ d'.error_message = some m) := by
  rcases hr : (downloadGameBody req sim).outcome with m | u
  · have hsf : bodySuccess (downloadGameBody req sim) = false := by
      simp [bodySuccess, hr]
    have hbe : bodyError (downloadGameBody req sim) = some m := by
      simp [bodyError, hr]
    refine ⟨?_, ?_⟩
    · simp only [downloadGame, hsf, hbe]
      rw [finalizeDownload_spec cfg i false (some m) now s d hd]
      simpa using lookupActive_removeKey_self s.active_downloads i
    · intro hcap
      refine ⟨finalRecord d false (some m) now, ?_,
        Or.inr (by simp [finalRecord]), ?_⟩
      · simp only [downloadGame, hsf, hbe]
        rw [finalizeDownload_spec cfg i false (some m) now s d hd]
        exact insertHistory_head _ hcap _ _
      · intro m' hm'
        injection hm' with hmm
        subst hmm
        exact ⟨by simp [finalRecord], by simp [finalRecord]⟩
  · have hsf : bodySuccess (downloadGameBody req sim) = true := by
      simp [bodySuccess, hr]
    have hbe : bodyError (downloadGameBody req sim) = none := by
      simp [bodyError, hr]
    refine ⟨?_, ?_⟩
    · simp only [downloadGame, hsf, hbe]
      rw [finalizeDownload_spec cfg i true none now s d hd]
      simpa using lookupActive_removeKey_self s.active_downloads i
    · intro hcap
      refine ⟨finalRecord d true none now, ?_,
        Or.inl (by simp [finalRecord]), ?_⟩
      · simp only [downloadGame, hsf, hbe]
        rw [finalizeDownload_spec cfg i true none now s d hd]
        exact insertHistory_head _ hcap _ _
      · intro m hm
        exact absurd hm (by simp)

/-- C8 witness: dispatch job "p" whose request has a truthy install
override, so the body raises the `NameError`; the job leaves the active
set and the history record is `Failed` carrying the exception text. -/
theorem C8_faults_contained_witness :
    lookupActive (downloadGame cfgDefault "p" reqPathDir simOk 1
      (run cfgDefault initState
        [.submit "p" reqPathDir "G" 0, .dispatch])).active_downloads "p" =
      none ∧
    ∃ d',
      (downloadGame cfgDefault "p" reqPathDir simOk 1
        (run cfgDefault initState
          [.submit "p" reqPathDir "G" 0, .dispatch])).download_history.head? =
        some d' ∧
      (d'.status = .completed ∨ d'.status = .failed) := by
  have h := C8_faults_contained cfgDefault "p" reqPathDir simOk 1
    (run cfgDefault initState [.submit "p" reqPathDir "G" 0, .dispatch])
    recP (by decide)
  obtain ⟨d', hh, hterm, _⟩ := h.2 (by decide)
  exact ⟨h.1, d', hh, hterm⟩

end SteamDL
